import Mathlib

/-!
# TradingJournal — Analytics & Aggregation Engine, shallow embedding

This file embeds the analytics pipeline of the TradingJournal repository
(`src/src/App.js`, and the earlier variant `src/unnamed/part_000`) in Lean 4
and proves the specification claims about it.

Modelling conventions, used throughout:

* JavaScript numbers are modelled as rationals (`ℚ`).  Every numeric value the
  claims mention (`2`, `-1`, `200`, `50.00`, …) is exactly representable in
  binary floating point, so the rational model agrees with the JS evaluation
  on everything proved here.  `Number.prototype.toFixed(2)` produces a decimal
  string; we model the *numeric value* of that string: `toFixed2 q` is the
  multiple of `1/100` nearest to `q` (ties go up, matching the ECMAScript
  `toFixed` rule "if there are two such n, pick the larger n").

* Calendar dates are modelled by their day number (`ℤ`, days since an
  arbitrary epoch; day 0 is a Thursday, matching 1970-01-01, so that
  `getDay` can be computed).  A stored `date` field is one of
  - the empty string (falsy in JS) — constructor `DateField.empty`;
  - a canonical `YYYY-MM-DD` string (what the app's `<input type="date">`
    produces), identified with its day number — constructor
    `DateField.valid d`.  For such strings `parseISODate` succeeds,
    `formatDateKey` is its inverse, and lexicographic string order agrees
    with day-number order;
  - any other non-empty string, on which `new Date(...)` yields an
    *Invalid Date* — constructor `DateField.malformed`.  An Invalid Date is
    truthy, and every `<`/`>`/`<=`/`>=` comparison involving it is false
    (`NaN` semantics); the embedding reproduces exactly that behaviour.

* Clock times: a stored `time` field is either the empty string
  (`TimeField.empty`, falsy), a string parsing as `h:m`
  (`TimeField.hm h m` — `"09:35".split(':').map(Number)` gives `[9, 35]`),
  or a non-empty string on which `Number` yields `NaN`
  (`TimeField.malformed`); with a `NaN` minute count every range comparison
  in `getTimeRange` is false and control falls through to the final return.

* Presentation-only fields (the locale-formatted `label` of series entries)
  are omitted: they are derived from the date for display and no claim
  mentions them.
-/

/-- A stored `date` string, abstracted by how `parseISODate` treats it.
See the header comment for the three classes. -/
inductive DateField
  | empty
  | malformed
  | valid (d : ℤ)
deriving DecidableEq, Repr

/-- A stored `time` string, abstracted by how `getTimeRange` treats it. -/
inductive TimeField
  | empty
  | malformed
  | hm (h m : ℕ)
deriving DecidableEq, Repr

/-- Result of `parseISODate`: `null` for falsy input, an Invalid Date for
non-empty strings that do not parse, otherwise the date. -/
inductive ParsedDate
  | nullv
  | invalid
  | date (d : ℤ)
deriving DecidableEq, Repr

inductive Side
  | long
  | short
deriving DecidableEq, Repr

inductive TradeResult
  | win
  | loss
deriving DecidableEq, Repr

/-- The five explicit intraday buckets plus the `'unknown'` value returned
for an absent time (`src/src/App.js` line 659). -/
inductive TimeBucket
  | b930
  | b945
  | b1000
  | b1015
  | b1030plus
  | unknown
deriving DecidableEq, Repr

/-- Result of `getDayOfWeek`: a weekday name, the string `'Unknown'` for a
falsy date, or JS `undefined` (`days[NaN]`) for an Invalid Date. -/
inductive DayTag
  | sunday
  | monday
  | tuesday
  | wednesday
  | thursday
  | friday
  | saturday
  | unknownTag
  | undef
deriving DecidableEq, Repr

/-- A trade record as stored by the app (§3 of the spec; constructed at
`src/src/App.js` lines 573-582).  `profitLoss` is optional because the
aggregators guard every read with `trade.profitLoss || 0`. -/
structure Trade where
  id : ℕ
  date : DateField
  time : TimeField
  side : Side
  instrument : String
  result : TradeResult
  riskReward : ℚ
  profitLoss : Option ℚ
deriving DecidableEq, Repr

/-- `trade.profitLoss || 0`. -/
def plOf (t : Trade) : ℚ := t.profitLoss.getD 0

/-- `filters.timeRange`: the string `'all'` or a bucket name. -/
inductive TimeFilter
  | all
  | sel (b : TimeBucket)
deriving DecidableEq, Repr

/-- `filters.dayOfWeek`: the string `'all'` or a weekday name. -/
inductive DayFilter
  | all
  | sel (d : DayTag)
deriving DecidableEq, Repr

/-- `filters.instrument`: the string `'all'` or an instrument name. -/
inductive InstFilter
  | all
  | sel (s : String)
deriving DecidableEq, Repr

/-- The filter configuration of `src/src/App.js` (no free-text search). -/
structure Filters where
  timeRange : TimeFilter
  dayOfWeek : DayFilter
  instrument : InstFilter
deriving DecidableEq, Repr

/-- `dateRange`: optional start and end dates (both `null` = all time). -/
structure DateRange where
  startD : Option ℤ
  endD : Option ℤ
deriving DecidableEq, Repr

/-- The all-time range `{ start: null, end: null }`. -/
def allRange : DateRange := ⟨none, none⟩

/-- The configuration with every filter set to `'all'`. -/
def allFilters : Filters := ⟨.all, .all, .all⟩

/-- Numeric value of `x.toFixed(2)`: nearest multiple of 1/100, ties up
(ECMAScript: the integer `n` minimising `|n / 10^f - x|`, the larger on a
tie). -/
def toFixed2 (q : ℚ) : ℚ := (⌊q * 100 + 1 / 2⌋ : ℤ) / 100

/-- Numeric value of `parseFloat(x.toFixed(1))`. -/
def toFixed1 (q : ℚ) : ℚ := (⌊q * 10 + 1 / 2⌋ : ℤ) / 10

/-- `parseISODate` (`src/src/App.js` lines 53-57): falsy input gives `null`;
a canonical `YYYY-MM-DD` string gives its date; any other non-empty string
gives an Invalid Date (`new Date(NaN, NaN, NaN)`). -/
def parseISODate : DateField → ParsedDate
  | .empty => .nullv
  | .malformed => .invalid
  | .valid d => .date d

/-- `getTimeRange` (`src/src/App.js` lines 658-668).  A falsy time returns
`'unknown'` before any parsing.  Otherwise `totalMinutes = hours*60+minutes`
is checked against a chain of half-open intervals; for a malformed time
`totalMinutes` is `NaN`, every comparison is false, and the final
`return '10:30+'` is reached. -/
def getTimeRange (time : TimeField) : TimeBucket :=
  match time with
  | .empty => .unknown
  | .malformed => .b1030plus
  | .hm h m =>
    let totalMinutes := h * 60 + m
    if 570 ≤ totalMinutes ∧ totalMinutes < 585 then .b930
    else if 585 ≤ totalMinutes ∧ totalMinutes < 600 then .b945
    else if 600 ≤ totalMinutes ∧ totalMinutes < 615 then .b1000
    else if 615 ≤ totalMinutes ∧ totalMinutes < 630 then .b1015
    else .b1030plus

/-- `date.getDay()` for a valid date, as a number 0-6 (0 = Sunday).
Day number 0 of the model is a Thursday (1970-01-01), hence the offset 4. -/
def dayOfWeekNum (d : ℤ) : ℕ := ((d + 4) % 7).toNat

/-- `getDayOfWeek` (`src/src/App.js` lines 670-674): `days[date.getDay()]`
when `parseISODate` is truthy, else the string `'Unknown'`.  An Invalid
Date is truthy and `days[NaN]` is `undefined`, modelled by `DayTag.undef`. -/
def getDayOfWeek (df : DateField) : DayTag :=
  match parseISODate df with
  | .nullv => .unknownTag
  | .invalid => .undef
  | .date d =>
    match dayOfWeekNum d with
    | 0 => .sunday
    | 1 => .monday
    | 2 => .tuesday
    | 3 => .wednesday
    | 4 => .thursday
    | 5 => .friday
    | _ => .saturday

/-- `rangeFilteredTrades` (`src/src/App.js` lines 676-684).  A trade whose
`parseISODate` is `null` is dropped by the truthiness guard; an Invalid Date
passes the guard and both bound comparisons are false (`NaN`), so the trade
is kept under every range; a valid date must lie within whichever bounds are
set. -/
def rangeFilteredTrades (trades : List Trade) (r : DateRange) : List Trade :=
  trades.filter fun t =>
    match parseISODate t.date with
    | .nullv => false
    | .invalid => true
    | .date d =>
      (match r.startD with
       | some s => decide (¬ d < s)
       | none => true) &&
      (match r.endD with
       | some e => decide (¬ e < d)
       | none => true)

/-- `filteredTrades` (`src/src/App.js` lines 686-697): the range-filtered set
further restricted by the time-bucket, weekday and instrument filters, each
skipped when set to `'all'`. -/
def filteredTrades (trades : List Trade) (f : Filters) (r : DateRange) :
    List Trade :=
  (rangeFilteredTrades trades r).filter fun t =>
    (match f.timeRange with
     | .all => true
     | .sel b => getTimeRange t.time == b) &&
    (match f.dayOfWeek with
     | .all => true
     | .sel d => getDayOfWeek t.date == d) &&
    (match f.instrument with
     | .all => true
     | .sel s => t.instrument == s)

/-- `periodFilteredTrades` of the variant (`src/unnamed/part_000` lines
215-222), with the resolved period start (`getPeriodStartDate`) passed in:
`null` start returns the whole collection unfiltered; otherwise a trade is
kept iff `parseISODate(trade.date)` is truthy *and* `tradeDate >= startDate`
(false for an Invalid Date). -/
def periodFilteredTrades (trades : List Trade) (startDate : Option ℤ) :
    List Trade :=
  match startDate with
  | none => trades
  | some s =>
    trades.filter fun t =>
      match parseISODate t.date with
      | .date d => decide (s ≤ d)
      | _ => false

/-- Sum of `riskReward` over the win records of a list
(`src/src/App.js` lines 706-708). -/
def totalWinRR (ts : List Trade) : ℚ :=
  ((ts.filter fun t => t.result == .win).map (·.riskReward)).sum

/-- `Math.abs` of the sum of `riskReward` over the loss records
(`src/src/App.js` lines 710-714). -/
def totalLossRR (ts : List Trade) : ℚ :=
  |((ts.filter fun t => t.result == .loss).map (·.riskReward)).sum|

/-- `profitFactor` is the string `'∞'` or a `toFixed(2)` decimal string;
we model the numeric value of the latter.  `'0.00'` is `fin 0`. -/
inductive ProfitFactor
  | fin (q : ℚ)
  | inf
deriving DecidableEq, Repr

/-- The metrics snapshot (`src/src/App.js` line 724).  `winRate` and `avgRR`
hold the numeric value of the `toFixed(2)` strings. -/
structure Metrics where
  wins : ℕ
  losses : ℕ
  total : ℕ
  winRate : ℚ
  profitFactor : ProfitFactor
  avgRR : ℚ
  netPnL : ℚ
deriving DecidableEq, Repr

/-- `metrics` (`src/src/App.js` lines 699-725; identical code at
`src/unnamed/part_000` lines 239-265). -/
def metrics (ts : List Trade) : Metrics :=
  let wins := (ts.filter fun t => t.result == .win).length
  let losses := (ts.filter fun t => t.result == .loss).length
  let total := ts.length
  let winRate := if 0 < total then toFixed2 ((wins : ℚ) / total * 100) else 0
  let profitFactor :=
    if 0 < totalLossRR ts then
      ProfitFactor.fin (toFixed2 (totalWinRR ts / totalLossRR ts))
    else if 0 < totalWinRR ts then ProfitFactor.inf
    else ProfitFactor.fin 0
  let avgRR :=
    if 0 < total then toFixed2 (((ts.map (·.riskReward)).sum) / total) else 0
  let netPnL := (ts.map plOf).sum
  ⟨wins, losses, total, winRate, profitFactor, avgRR, netPnL⟩

/-- One row of the time-bucket breakdown (`src/src/App.js` lines 727-739). -/
structure BucketRow where
  bucket : TimeBucket
  winRate : ℚ
  count : ℕ
deriving DecidableEq, Repr

/-- The five explicit buckets, in the order the breakdown lists them. -/
def fiveBuckets : List TimeBucket :=
  [.b930, .b945, .b1000, .b1015, .b1030plus]

/-- `timeRangeData` (`src/src/App.js` lines 727-739): per explicit bucket,
the 1-decimal win rate and the trade count over the filtered set restricted
to that bucket. -/
def timeRangeData (ts : List Trade) : List BucketRow :=
  fiveBuckets.map fun b =>
    let rangeTrades := ts.filter fun t => getTimeRange t.time == b
    let wins := (rangeTrades.filter fun t => t.result == .win).length
    ⟨b,
     if 0 < rangeTrades.length then
       toFixed1 ((wins : ℚ) / rangeTrades.length * 100)
     else 0,
     rangeTrades.length⟩

/-- One row of the weekday breakdown (`src/src/App.js` lines 741-753). -/
structure DayRow where
  day : DayTag
  winRate : ℚ
  count : ℕ
deriving DecidableEq, Repr

/-- `dayData` (`src/src/App.js` lines 741-753): Monday through Friday only. -/
def dayData (ts : List Trade) : List DayRow :=
  [DayTag.monday, .tuesday, .wednesday, .thursday, .friday].map fun d =>
    let dayTrades := ts.filter fun t => getDayOfWeek t.date == d
    let wins := (dayTrades.filter fun t => t.result == .win).length
    ⟨d,
     if 0 < dayTrades.length then
       toFixed1 ((wins : ℚ) / dayTrades.length * 100)
     else 0,
     dayTrades.length⟩

/-- `Array.from(new Set(...))`: deduplication preserving first-occurrence
order. -/
def uniqueFirst (l : List String) : List String :=
  l.foldl (fun acc s => if s ∈ acc then acc else acc ++ [s]) []

/-- One row of the instrument breakdown (`src/src/App.js` lines 802-817). -/
structure InstrumentRow where
  instrument : String
  wins : ℕ
  losses : ℕ
  winRate : ℚ
  pnl : ℚ
deriving DecidableEq, Repr

/-- `instrumentData` (`src/src/App.js` lines 802-817): one row per distinct
instrument seen across *all* trades, with counts and P&L taken over the
filtered set. -/
def instrumentData (trades ts : List Trade) : List InstrumentRow :=
  (uniqueFirst (trades.map (·.instrument))).map fun i =>
    let instTrades := ts.filter fun t => t.instrument == i
    let wins := (instTrades.filter fun t => t.result == .win).length
    let total := instTrades.length
    ⟨i, wins, total - wins,
     if 0 < total then toFixed1 ((wins : ℚ) / total * 100) else 0,
     (instTrades.map plOf).sum⟩

/-- The per-day totals object of `dailyPnLData` (`src/src/App.js` lines
756-760), read through its only use `dailyTotals[key] || 0` at line 786:
the summed `profitLoss` of the trades whose stored `date` string equals the
canonical key of day `d`.  (Trades with a falsy date are skipped when the
object is built; their `date` also never equals a canonical key, so the
filter below already excludes them, as it does malformed strings.) -/
def dailyTotal (ts : List Trade) (d : ℤ) : ℚ :=
  ((ts.filter fun t => t.date == .valid d).map plOf).sum

/-- Does the list contribute a malformed (non-empty, unparsable) date key to
`dailyTotals`? -/
def hasMalformedDate (ts : List Trade) : Bool :=
  ts.any fun t => t.date == .malformed

/-- The valid day numbers among the `dailyTotals` keys. -/
def validDays (ts : List Trade) : List ℤ :=
  ts.filterMap fun t =>
    match t.date with
    | .valid d => some d
    | _ => none

/-- `sortedKeys[0]` (`src/src/App.js` line 762): the least key of
`dailyTotals` in string order, `none` when there are no keys.  Canonical
date keys sort chronologically.  Where a malformed key sorts among canonical
ones depends on its characters; the development only ever uses this when the
keys are all canonical or all malformed, so the placement chosen here
(malformed last) is never load-bearing. -/
def seriesKeyMin (ts : List Trade) : Option DateField :=
  match (validDays ts).min? with
  | some d => some (.valid d)
  | none => if hasMalformedDate ts then some .malformed else none

/-- `sortedKeys[sortedKeys.length - 1]`: the greatest key in string order,
with the same caveat as `seriesKeyMin`. -/
def seriesKeyMax (ts : List Trade) : Option DateField :=
  if hasMalformedDate ts then some .malformed
  else
    match (validDays ts).max? with
    | some d => some (.valid d)
    | none => none

/-- `startOfDay(parseISODate(key))` for a `dailyTotals` key: a day number,
or `none` for the Invalid Date produced by a malformed key. -/
def keyToDate : DateField → Option ℤ
  | .valid d => some d
  | _ => none

/-- `defaultStart` of `dailyPnLData` (`src/src/App.js` lines 764-768): the
range's start if set, else the first sorted key's date, else today. -/
def defaultStartD (ts : List Trade) (r : DateRange) (today : ℤ) : Option ℤ :=
  match r.startD with
  | some s => some s
  | none =>
    match seriesKeyMin ts with
    | some k => keyToDate k
    | none => some today

/-- `defaultEnd` of `dailyPnLData` (`src/src/App.js` lines 769-773): the
range's end if set, else the last sorted key's date, else `defaultStart`. -/
def defaultEndD (ts : List Trade) (r : DateRange) (today : ℤ) : Option ℤ :=
  match r.endD with
  | some e => some e
  | none =>
    match seriesKeyMax ts with
    | some k => keyToDate k
    | none => defaultStartD ts r today

/-- The `cursor`/`endDate` pair of `dailyPnLData` after the three clamping
steps (`src/src/App.js` lines 775-779).  `none` models an Invalid Date,
which every comparison treats as false, so it passes through the clamps
unchanged.  (`defaultStart`/`defaultEnd` are always Date objects, hence
truthy, so the `: new Date(today)` fallbacks at lines 775-776 are never
taken.) -/
def seriesBounds (ts : List Trade) (r : DateRange) (today : ℤ) :
    Option ℤ × Option ℤ :=
  let cursor :=
    (defaultStartD ts r today).map fun c => if today < c then today else c
  let endDate :=
    (defaultEndD ts r today).map fun e => if today < e then today else e
  match endDate, cursor with
  | some e, some c => (cursor, some (if e < c then c else e))
  | _, _ => (cursor, endDate)

/-- One entry of the daily series: the canonical date key and that day's
summed P&L.  The locale display `label` of the source entry is omitted
(presentation only). -/
structure DayEntry where
  day : ℤ
  pnl : ℚ
deriving DecidableEq, Repr

/-- `dailyPnLData` (`src/src/App.js` lines 755-792): one entry per calendar
day from `cursor` to `endDate` inclusive (the `while (cursor <= endDate)`
walk, whose guard is false when either bound is an Invalid Date). -/
def dailyPnLData (ts : List Trade) (r : DateRange) (today : ℤ) :
    List DayEntry :=
  match seriesBounds ts r today with
  | (some c, some e) =>
    if c ≤ e then
      (List.range (e - c + 1).toNat).map fun i : ℕ =>
        ⟨c + (i : ℤ), dailyTotal ts (c + (i : ℤ))⟩
    else []
  | _ => []

/-- A daily-series entry extended with the running total. -/
structure CumEntry where
  day : ℤ
  pnl : ℚ
  cumulative : ℚ
deriving DecidableEq, Repr

/-- The running-total pass of `cumulativePnLData`
(`src/src/App.js` lines 794-800). -/
def withCumulative (acc : ℚ) : List DayEntry → List CumEntry
  | [] => []
  | e :: rest => ⟨e.day, e.pnl, acc + e.pnl⟩ :: withCumulative (acc + e.pnl) rest

/-- `cumulativePnLData` (`src/src/App.js` lines 794-800): the daily series
with a prefix-summed `cumulative` field. -/
def cumulativePnLData (ts : List Trade) (r : DateRange) (today : ℤ) :
    List CumEntry :=
  withCumulative 0 (dailyPnLData ts r today)

/-- The per-date aggregate of the calendar index
(`src/src/App.js` lines 822-828). -/
structure DayAgg where
  wins : ℕ
  losses : ℕ
  profitLoss : ℚ
  trades : List Trade
deriving DecidableEq, Repr

/-- Fold a trade into one key of the calendar index, keeping first-insertion
key order (JS object string keys preserve insertion order). -/
def calendarInsert : List (DateField × DayAgg) → DateField → Trade →
    List (DateField × DayAgg)
  | [], k, t =>
    [(k, ⟨if t.result == .win then 1 else 0,
          if t.result == .loss then 1 else 0,
          plOf t, [t]⟩)]
  | (k', a) :: rest, k, t =>
    if k' = k then
      (k', ⟨a.wins + (if t.result == .win then 1 else 0),
            a.losses + (if t.result == .loss then 1 else 0),
            a.profitLoss + plOf t,
            a.trades ++ [t]⟩) :: rest
    else (k', a) :: calendarInsert rest k t

/-- `tradesByDate` (`src/src/App.js` lines 819-831; identical code at
`src/unnamed/part_000` lines 333-345): the whole, unfiltered trade
collection grouped by `date` key, skipping falsy dates.  Its `useMemo`
dependency list is `[trades]` alone. -/
def tradesByDate (trades : List Trade) : List (DateField × DayAgg) :=
  trades.foldl
    (fun acc t =>
      match t.date with
      | .empty => acc
      | k => calendarInsert acc k t)
    []

/-- The pending picker selection (`rangeSelection`): a first click stores
`{start, end: null}`, a second click completes the pair. -/
structure RangeSelection where
  selStart : Option ℤ
  selEnd : Option ℤ
deriving DecidableEq, Repr

/-- `applyRangeSelection` (`src/src/App.js` lines 964-982): clamp `start`
and `end` to today, default a missing `end` to the clamped `start`, then
collapse `start` to `end` if it still exceeds it.  Returns `none` when no
start was selected (the early `return`). -/
def applyRangeSelection (sel : RangeSelection) (today : ℤ) :
    Option (ℤ × ℤ) :=
  match sel.selStart with
  | none => none
  | some s =>
    let start1 := if today < s then today else s
    let end1 :=
      match sel.selEnd with
      | some e => if today < e then today else e
      | none => if today < s then today else s
    some (if end1 < start1 then end1 else start1, end1)

/-- The derived artifacts the engine hands to the presentation layer,
computed from one input snapshot. -/
structure EngineOutput where
  metricsOut : Metrics
  timeRangeOut : List BucketRow
  dayOut : List DayRow
  instrumentOut : List InstrumentRow
  dailyOut : List DayEntry
  cumulativeOut : List CumEntry
  calendarOut : List (DateField × DayAgg)
deriving DecidableEq, Repr

/-- The full recomputation performed on an input snapshot `(trades, filters,
range, today)`: every artifact of `src/src/App.js` lines 676-831 except the
month-navigation helpers.  `tradesByDate` reads only `trades`. -/
def computeEngine (trades : List Trade) (f : Filters) (r : DateRange)
    (today : ℤ) : EngineOutput :=
  let fs := filteredTrades trades f r
  ⟨metrics fs, timeRangeData fs, dayData fs, instrumentData trades fs,
   dailyPnLData fs r today, cumulativePnLData fs r today, tradesByDate trades⟩

/-! ## Shared concrete records

Day number 19724 is 2024-01-02 (and `(19724 + 4) % 7 = 2`, a Tuesday, as it
was).  The spec's scenario omits the second trade's `side`; the engine never
reads `side`, so `long` is used. -/

/-- The winning trade of the §8 scenario. -/
def scWin : Trade :=
  ⟨1, .valid 19724, .hm 9 35, .long, "NQ!", .win, 2, some 200⟩

/-- The losing trade of the §8 scenario. -/
def scLoss : Trade :=
  ⟨2, .valid 19724, .hm 9 50, .long, "NQ!", .loss, -1, some (-100)⟩

/-! ## Claim theorems -/

/-- **C1.**  For the two-record §8 scenario `[scWin, scLoss]` with every
filter `'all'` and the unbounded range, the metrics aggregator returns
`wins = 1`, `losses = 1`, `winRate = 50.00`, `totalWinRR = 2`,
`totalLossRR = 1`, `profitFactor = 2.00`, `avgRR = 0.50`, `netPnL = 100`. -/
theorem metrics_two_trade_scenario :
    metrics (filteredTrades [scWin, scLoss] allFilters allRange) =
      ⟨1, 1, 2, 50, .fin 2, 1 / 2, 100⟩
    ∧ totalWinRR (filteredTrades [scWin, scLoss] allFilters allRange) = 2
    ∧ totalLossRR (filteredTrades [scWin, scLoss] allFilters allRange) = 1 := by
  simp +decide only [metrics, filteredTrades, rangeFilteredTrades,
    parseISODate, totalWinRR, totalLossRR, plOf, allFilters, allRange,
    scWin, scLoss, List.filter_cons, List.filter_nil, List.map,
    List.sum_cons, List.sum_nil, List.length_cons, List.length_nil,
    Option.getD]
  norm_num +decide [toFixed2, List.filter_cons, List.filter_nil]

/-- **C2.**  The calendar index (`tradesByDate`) computed by the engine is a
function of the full unfiltered trade collection only: recomputing with any
two filter/range/today configurations yields identical calendar contents. -/
theorem calendar_index_filter_independent
    (ts : List Trade) (f₁ f₂ : Filters) (r₁ r₂ : DateRange)
    (today₁ today₂ : ℤ) :
    (computeEngine ts f₁ r₁ today₁).calendarOut =
      (computeEngine ts f₂ r₂ today₂).calendarOut := rfl

/-- **C4.**  For every time of the form `HH:MM` (`h ≤ 23`, `m ≤ 59`), the
classifier assigns the half-open bucket containing it; every time at or
after 10:30, and also every time strictly before 9:30, lands in the
`10:30+` catch-all. -/
theorem getTimeRange_buckets (h m : ℕ) (_hh : h ≤ 23) (_hm : m ≤ 59) :
    (570 ≤ h * 60 + m ∧ h * 60 + m < 585 → getTimeRange (.hm h m) = .b930)
    ∧ (585 ≤ h * 60 + m ∧ h * 60 + m < 600 → getTimeRange (.hm h m) = .b945)
    ∧ (600 ≤ h * 60 + m ∧ h * 60 + m < 615 → getTimeRange (.hm h m) = .b1000)
    ∧ (615 ≤ h * 60 + m ∧ h * 60 + m < 630 → getTimeRange (.hm h m) = .b1015)
    ∧ (630 ≤ h * 60 + m → getTimeRange (.hm h m) = .b1030plus)
    ∧ (h * 60 + m < 570 → getTimeRange (.hm h m) = .b1030plus) := by
  refine ⟨?_, ?_, ?_, ?_, ?_, ?_⟩ <;>
    (intro ht; simp only [getTimeRange]; split_ifs <;> first | rfl | omega)

/-- Witness for C4: 10:00 lands in the `[10:00,10:15)` bucket. -/
theorem getTimeRange_buckets_witness : getTimeRange (.hm 10 0) = .b1000 :=
  (getTimeRange_buckets 10 0 (by decide) (by decide)).2.2.1 (by decide)

/-- `toFixed` of a non-negative number is non-negative. -/
theorem toFixed2_nonneg {q : ℚ} (hq : 0 ≤ q) : 0 ≤ toFixed2 q := by
  unfold toFixed2
  have h1 : (0 : ℚ) ≤ q * 100 + 1 / 2 := by positivity
  have h2 : (0 : ℤ) ≤ ⌊q * 100 + 1 / 2⌋ := Int.floor_nonneg.mpr h1
  positivity

/-- **C3 counterexample.**  With an unnormalised win (`riskReward = -2`)
and a loss (`riskReward = -1`), the computed `profitFactor` is the
`toFixed(2)` value `-2.00` — strictly negative, refuting "the computed
profitFactor is never negative" for arbitrary (unnormalised) records. -/
theorem profitFactor_negative_counterexample :
    (metrics (filteredTrades
        [⟨1, .valid 0, .empty, .long, "NQ", .win, -2, some 0⟩,
         ⟨2, .valid 0, .empty, .long, "NQ", .loss, -1, some 0⟩]
        allFilters allRange)).profitFactor = .fin (-2)
    ∧ (-2 : ℚ) < 0 := by
  constructor
  · simp +decide only [metrics, filteredTrades, rangeFilteredTrades,
      parseISODate, totalWinRR, totalLossRR, allFilters, allRange,
      List.filter_cons, List.filter_nil, List.map, List.sum_cons,
      List.sum_nil, List.length_cons, List.length_nil]
    norm_num [toFixed2]
  · norm_num

/-- **C3 (amended).**  For every input, `profitFactor` is a defined value of
its sum type (never `NaN`/undefined — `riskReward` sums are rationals by
construction): when `totalLossRR = 0` it is the `'∞'` sentinel if
`totalWinRR > 0` and `0.00` otherwise; and it is never negative *provided
every win record of the filtered set has non-negative `riskReward`* (the
normalisation the construction variants enforce).  Without that proviso the
value can be negative, as the counterexample shows. -/
theorem profitFactor_sentinel_amended (ts : List Trade) (f : Filters)
    (r : DateRange) :
    (totalLossRR (filteredTrades ts f r) = 0 →
      (metrics (filteredTrades ts f r)).profitFactor =
        if 0 < totalWinRR (filteredTrades ts f r) then .inf else .fin 0)
    ∧ ((∀ t ∈ filteredTrades ts f r, t.result = .win → 0 ≤ t.riskReward) →
        ∀ q, (metrics (filteredTrades ts f r)).profitFactor = .fin q →
          0 ≤ q) := by
  constructor
  · intro h0
    simp only [metrics, h0, lt_irrefl, if_false]
  · intro hn q hq
    simp only [metrics] at hq
    by_cases h1 : 0 < totalLossRR (filteredTrades ts f r)
    · rw [if_pos h1] at hq
      have hq' : q = toFixed2 (totalWinRR (filteredTrades ts f r) /
          totalLossRR (filteredTrades ts f r)) := by
        injection hq with h3
        exact h3.symm
      subst hq'
      apply toFixed2_nonneg
      apply div_nonneg
      · apply List.sum_nonneg
        intro x hx
        obtain ⟨t, ht, rfl⟩ := List.mem_map.mp hx
        have := List.mem_filter.mp ht
        exact hn t this.1 (by simpa using this.2)
      · exact le_of_lt h1
    · rw [if_neg h1] at hq
      by_cases h2 : 0 < totalWinRR (filteredTrades ts f r)
      · rw [if_pos h2] at hq
        exact absurd hq (by simp)
      · rw [if_neg h2] at hq
        have h3 : (0 : ℚ) = q := by injection hq
        rw [← h3]

/-- Witness for C3 (amended): a single normalised win gives the `'∞'`
sentinel, and every finite value the aggregator could return there is
non-negative. -/
theorem profitFactor_sentinel_witness :
    (metrics (filteredTrades
        [⟨1, .valid 0, .empty, .long, "NQ", .win, 3, some 0⟩]
        allFilters allRange)).profitFactor = .inf
    ∧ (∀ q, (metrics (filteredTrades
        [⟨1, .valid 0, .empty, .long, "NQ", .win, 3, some 0⟩]
        allFilters allRange)).profitFactor = .fin q → 0 ≤ q) := by
  have h := profitFactor_sentinel_amended
    [⟨1, .valid 0, .empty, .long, "NQ", .win, 3, some 0⟩] allFilters allRange
  constructor
  · have h0 := h.1 (by
      simp +decide only [totalLossRR, filteredTrades, rangeFilteredTrades,
        parseISODate, allFilters, allRange, List.filter_cons, List.filter_nil,
        List.map, List.sum_nil])
    have hw : 0 < totalWinRR (filteredTrades
        [⟨1, .valid 0, .empty, .long, "NQ", .win, 3, some 0⟩]
        allFilters allRange) := by
      simp +decide only [totalWinRR, filteredTrades, rangeFilteredTrades,
        parseISODate, allFilters, allRange, List.filter_cons, List.filter_nil,
        List.map, List.sum_cons, List.sum_nil]
      norm_num
    rw [h0, if_pos hw]
  · exact h.2 (by
      intro t ht _
      simp only [filteredTrades] at ht
      have h1 := List.mem_of_mem_filter ht
      simp only [rangeFilteredTrades] at h1
      have h2 := List.mem_of_mem_filter h1
      simp only [List.mem_singleton] at h2
      subst h2
      norm_num)

/-- **C5 counterexample.**  A record with an empty `date` string is excluded
by `rangeFilteredTrades` even under the fully unbounded all-time range
(`parseISODate` returns `null` and the truthiness guard at
`src/src/App.js` line 679 drops the record before any bound is consulted),
refuting "includes the record when the range is fully unbounded". -/
theorem rangeFilter_unparsable_counterexample :
    rangeFilteredTrades [⟨4, .empty, .empty, .long, "NQ!", .win, 1, some 0⟩]
      allRange = [] := by
  simp [rangeFilteredTrades, parseISODate, allRange, List.filter_cons]

/-- **C5 (amended).**  In `src/src/App.js` (`rangeFilteredTrades`) a record
with an empty date string is excluded under *every* range, and a record
with a malformed non-empty date string (an Invalid Date, all of whose
comparisons are false) is included under *every* range, bounds set or not.
Only in the `src/unnamed/part_000` variant (`periodFilteredTrades`) does
the claim hold as stated: unparsable dates (empty or malformed) are
excluded whenever the period bound is set and included under the unbounded
period. -/
theorem unparsable_date_filtering_amended (ts : List Trade) :
    (∀ (t : Trade) (r : DateRange), t.date = .empty →
      t ∉ rangeFilteredTrades ts r)
    ∧ (∀ (t : Trade) (r : DateRange), t.date = .malformed → t ∈ ts →
        t ∈ rangeFilteredTrades ts r)
    ∧ periodFilteredTrades ts none = ts
    ∧ (∀ (t : Trade) (s : ℤ), t.date = .empty ∨ t.date = .malformed →
        t ∉ periodFilteredTrades ts (some s)) := by
  refine ⟨?_, ?_, rfl, ?_⟩
  · intro t r ht hmem
    have := (List.mem_filter.mp hmem).2
    rw [ht] at this
    simp [parseISODate] at this
  · intro t r ht hmem
    refine List.mem_filter.mpr ⟨hmem, ?_⟩
    rw [ht]
    simp [parseISODate]
  · intro t s ht hmem
    have := (List.mem_filter.mp hmem).2
    rcases ht with ht | ht <;> rw [ht] at this <;> simp [parseISODate] at this

/-- Witness for C5 (amended), at a two-record collection and the bounded
range `[0, 10]`: the empty-date record is excluded even without bounds, the
malformed-date record is included even with bounds, and both are excluded
from the bounded period view of the variant. -/
theorem unparsable_date_filtering_witness :
    (⟨4, .empty, .empty, .long, "NQ!", .win, 1, some 0⟩ : Trade) ∉
      rangeFilteredTrades
        [⟨4, .empty, .empty, .long, "NQ!", .win, 1, some 0⟩,
         ⟨5, .malformed, .empty, .long, "NQ!", .win, 1, some 0⟩] allRange
    ∧ (⟨5, .malformed, .empty, .long, "NQ!", .win, 1, some 0⟩ : Trade) ∈
      rangeFilteredTrades
        [⟨4, .empty, .empty, .long, "NQ!", .win, 1, some 0⟩,
         ⟨5, .malformed, .empty, .long, "NQ!", .win, 1, some 0⟩]
        ⟨some 0, some 10⟩
    ∧ (⟨5, .malformed, .empty, .long, "NQ!", .win, 1, some 0⟩ : Trade) ∉
      periodFilteredTrades
        [⟨4, .empty, .empty, .long, "NQ!", .win, 1, some 0⟩,
         ⟨5, .malformed, .empty, .long, "NQ!", .win, 1, some 0⟩] (some 5) := by
  have h := unparsable_date_filtering_amended
    [⟨4, .empty, .empty, .long, "NQ!", .win, 1, some 0⟩,
     ⟨5, .malformed, .empty, .long, "NQ!", .win, 1, some 0⟩]
  exact ⟨h.1 _ allRange rfl,
    h.2.1 _ ⟨some 0, some 10⟩ rfl (by simp),
    h.2.2.2 _ 5 (Or.inr rfl)⟩

/-- **C6 counterexample.**  An unparsable *non-empty* time string does not
reach the `'unknown'` branch: `Number` parsing yields `NaN`, every interval
comparison is false, and the classifier returns `'10:30+'` — so the record
*is* retained by the explicit `10:30+` filter, refuting the claim for
unparsable (as opposed to empty) times. -/
theorem getTimeRange_malformed_counterexample :
    getTimeRange TimeField.malformed = .b1030plus
    ∧ filteredTrades [⟨3, .valid 19724, .malformed, .long, "NQ!", .win, 1, some 0⟩]
        ⟨.sel .b1030plus, .all, .all⟩ allRange =
      [⟨3, .valid 19724, .malformed, .long, "NQ!", .win, 1, some 0⟩] := by
  refine ⟨rfl, ?_⟩
  simp [filteredTrades, rangeFilteredTrades, parseISODate, getTimeRange,
    allRange, List.filter_cons]

/-- **C6 (amended).**  A record whose time string is *empty* is classified
`'unknown'`, which differs from each of the five explicit buckets, so the
record is excluded from the filtered set whenever an explicit bucket filter
is selected and is counted under no row of the time-bucket breakdown.
(A malformed non-empty time instead classifies as `10:30+`, per the
counterexample.) -/
theorem empty_time_unknown_amended (t : Trade) (h : t.time = .empty) :
    getTimeRange t.time = .unknown
    ∧ (∀ b ∈ fiveBuckets, getTimeRange t.time ≠ b)
    ∧ (∀ (ts : List Trade) (r : DateRange) (b : TimeBucket) (df : DayFilter)
        (instf : InstFilter), b ≠ .unknown →
        t ∉ filteredTrades ts ⟨.sel b, df, instf⟩ r)
    ∧ (∀ ts : List Trade, ∀ row ∈ timeRangeData ts,
        row.count =
          (ts.filter fun u => getTimeRange u.time == row.bucket).length
        ∧ getTimeRange t.time ≠ row.bucket) := by
  rw [h]
  refine ⟨rfl, ?_, ?_, ?_⟩
  · intro b hb
    simp only [fiveBuckets, List.mem_cons, List.not_mem_nil, or_false] at hb
    rcases hb with rfl | rfl | rfl | rfl | rfl <;> simp [getTimeRange]
  · intro ts r b df instf hb hmem
    have hpred := (List.mem_filter.mp hmem).2
    have h2 : (getTimeRange t.time == b) = true := by
      simp only [Bool.and_eq_true] at hpred
      exact hpred.1.1
    rw [h] at h2
    have h3 : getTimeRange .empty = b := by simpa using h2
    simp [getTimeRange] at h3
    exact hb h3.symm
  · intro ts row hrow
    obtain ⟨b, hb, rfl⟩ := List.mem_map.mp hrow
    refine ⟨rfl, ?_⟩
    simp only [fiveBuckets, List.mem_cons, List.not_mem_nil, or_false] at hb
    rcases hb with rfl | rfl | rfl | rfl | rfl <;> simp [getTimeRange]

/-- Witness for C6 (amended): a concrete empty-time record is classified
`'unknown'` and excluded under the explicit `9:30-9:45` filter. -/
theorem empty_time_unknown_witness :
    getTimeRange (⟨6, .valid 0, .empty, .long, "NQ!", .win, 1, some 0⟩ :
        Trade).time = .unknown
    ∧ (⟨6, .valid 0, .empty, .long, "NQ!", .win, 1, some 0⟩ : Trade) ∉
        filteredTrades [⟨6, .valid 0, .empty, .long, "NQ!", .win, 1, some 0⟩]
          ⟨.sel .b930, .all, .all⟩ allRange := by
  have h := empty_time_unknown_amended
    ⟨6, .valid 0, .empty, .long, "NQ!", .win, 1, some 0⟩ rfl
  exact ⟨h.1, h.2.2.1 _ allRange .b930 .all .all (by decide)⟩

/-- **C9.**  Applying an explicit picker selection clamps `start` and `end`
to today, then replaces `start` by `end` if it still exceeds it; the
applied range always satisfies `start ≤ end ≤ today`, and selecting
tomorrow as the single picked day yields the single-day range
`(today, today)`. -/
theorem applyRangeSelection_clamps (s e today : ℤ) :
    (applyRangeSelection ⟨some s, some e⟩ today =
      some
        (if (if today < e then today else e) < (if today < s then today else s)
         then (if today < e then today else e)
         else (if today < s then today else s),
         if today < e then today else e))
    ∧ applyRangeSelection ⟨some (today + 1), none⟩ today = some (today, today)
    ∧ (∀ a b, applyRangeSelection ⟨some s, some e⟩ today = some (a, b) →
        a ≤ b ∧ a ≤ today ∧ b ≤ today) := by
  refine ⟨rfl, ?_, ?_⟩
  · simp only [applyRangeSelection]
    split_ifs <;> simp <;> omega
  · intro a b hab
    simp only [applyRangeSelection, Option.some.injEq, Prod.mk.injEq] at hab
    obtain ⟨ha, hb⟩ := hab
    subst ha hb
    split_ifs <;> omega




/-! ## Series helper lemmas -/

/-- A collection whose records all carry parsable dates contributes no
malformed key. -/
theorem hasMalformedDate_eq_false (ts : List Trade)
    (h : ∀ t ∈ ts, ∃ d, t.date = DateField.valid d) :
    hasMalformedDate ts = false := by
  simp only [hasMalformedDate, List.any_eq_false]
  intro t ht
  obtain ⟨d, hd⟩ := h t ht
  simp [hd]

/-- With no malformed key, `defaultStart` always resolves to a date. -/
theorem defaultStartD_isSome (ts : List Trade) (r : DateRange) (today : ℤ)
    (h : hasMalformedDate ts = false) :
    ∃ c, defaultStartD ts r today = some c := by
  unfold defaultStartD seriesKeyMin
  cases hs : r.startD with
  | some s => exact ⟨s, rfl⟩
  | none =>
    cases hv : (validDays ts).min? with
    | some d => exact ⟨d, by simp [keyToDate]⟩
    | none => exact ⟨today, by simp [h]⟩

/-- With no malformed key, `defaultEnd` always resolves to a date. -/
theorem defaultEndD_isSome (ts : List Trade) (r : DateRange) (today : ℤ)
    (h : hasMalformedDate ts = false) :
    ∃ e, defaultEndD ts r today = some e := by
  unfold defaultEndD seriesKeyMax
  cases hs : r.endD with
  | some e => exact ⟨e, rfl⟩
  | none =>
    rw [h]
    cases hv : (validDays ts).max? with
    | some d => exact ⟨d, by simp [keyToDate]⟩
    | none =>
      obtain ⟨c, hc⟩ := defaultStartD_isSome ts r today h
      exact ⟨c, by simp [hc]⟩

/-- With no malformed key, the series bounds are a well-ordered pair of
dates. -/
theorem seriesBounds_some (ts : List Trade) (r : DateRange) (today : ℤ)
    (h : hasMalformedDate ts = false) :
    ∃ c e, seriesBounds ts r today = (some c, some e) ∧ c ≤ e := by
  obtain ⟨c0, hc0⟩ := defaultStartD_isSome ts r today h
  obtain ⟨e0, he0⟩ := defaultEndD_isSome ts r today h
  refine ⟨if today < c0 then today else c0,
    if (if today < e0 then today else e0) < (if today < c0 then today else c0)
    then (if today < c0 then today else c0)
    else (if today < e0 then today else e0), ?_, ?_⟩
  · simp [seriesBounds, hc0, he0]
  · split_ifs <;> omega

/-- The running total at the end of the cumulative pass is the starting
accumulator plus the sum of the entries. -/
theorem withCumulative_getLast (l : List DayEntry) :
    ∀ acc : ℚ, l ≠ [] →
      (withCumulative acc l).getLast?.map (·.cumulative) =
        some (acc + (l.map (·.pnl)).sum) := by
  induction l with
  | nil => intro acc hne; exact absurd rfl hne
  | cons e rest ih =>
    intro acc _
    cases rest with
    | nil => simp [withCumulative]
    | cons e2 t =>
      have h1 : withCumulative acc (e :: e2 :: t) =
          ⟨e.day, e.pnl, acc + e.pnl⟩ ::
            ⟨e2.day, e2.pnl, acc + e.pnl + e2.pnl⟩ ::
            withCumulative (acc + e.pnl + e2.pnl) t := rfl
      have h2 : (⟨e2.day, e2.pnl, acc + e.pnl + e2.pnl⟩ ::
          withCumulative (acc + e.pnl + e2.pnl) t : List CumEntry) =
          withCumulative (acc + e.pnl) (e2 :: t) := rfl
      rw [h1, List.getLast?_cons_cons, h2, ih (acc + e.pnl) (by simp)]
      simp [add_assoc]

/-- Summing an indicator supported at one day over a window of `n` days
starting at `c`. -/
theorem sum_indicator_range (n : ℕ) (c d : ℤ) (x : ℚ) :
    ((List.range n).map fun i : ℕ => if d = c + (i : ℤ) then x else 0).sum =
      if c ≤ d ∧ d < c + n then x else 0 := by
  induction n with
  | zero =>
    rw [if_neg (by omega)]
    simp
  | succ n ih =>
    rw [List.range_succ, List.map_append, List.sum_append, ih]
    simp only [List.map_cons, List.map_nil, List.sum_cons, List.sum_nil]
    by_cases hd : d = c + (n : ℤ)
    · rw [if_pos hd, if_neg (by omega), if_pos (by push_cast; omega)]
      ring
    · rw [if_neg hd]
      by_cases hin : c ≤ d ∧ d < c + (n : ℤ)
      · rw [if_pos hin, if_pos (by push_cast; omega)]
        ring
      · rw [if_neg hin, if_neg (by push_cast; omega)]
        ring

/-- Pointwise-sum distribution over a mapped list. -/
theorem map_add_sum {α : Type} (l : List α) (f g : α → ℚ) :
    (l.map fun a => f a + g a).sum = (l.map f).sum + (l.map g).sum := by
  induction l with
  | nil => simp
  | cons a t ih => simp [ih]; ring

/-- Splitting one trade out of a per-day total. -/
theorem dailyTotal_cons (t : Trade) (ts : List Trade) (x : ℤ) :
    dailyTotal (t :: ts) x =
      (if t.date = .valid x then plOf t else 0) + dailyTotal ts x := by
  by_cases hd : t.date = .valid x
  · simp [dailyTotal, List.filter_cons, hd]
  · simp [dailyTotal, List.filter_cons, hd]

/-- Walking a window of days that covers every trade's date and summing the
per-day totals recovers the total P&L of the collection. -/
theorem sum_dailyTotal (ts : List Trade) (c : ℤ) (n : ℕ)
    (h : ∀ t ∈ ts, ∃ d, t.date = DateField.valid d ∧ c ≤ d ∧ d < c + n) :
    ((List.range n).map fun i : ℕ => dailyTotal ts (c + (i : ℤ))).sum =
      (ts.map plOf).sum := by
  induction ts with
  | nil =>
    simp only [List.map_nil, List.sum_nil]
    apply List.sum_eq_zero
    intro x hx
    obtain ⟨i, _, rfl⟩ := List.mem_map.mp hx
    simp [dailyTotal]
  | cons t rest ih =>
    have hrest : ∀ u ∈ rest, ∃ d, u.date = DateField.valid d ∧
        c ≤ d ∧ d < c + n := fun u hu => h u (List.mem_cons_of_mem t hu)
    obtain ⟨d, hd, hcd, hdn⟩ := h t (List.mem_cons_self t rest)
    calc ((List.range n).map fun i : ℕ =>
            dailyTotal (t :: rest) (c + (i:ℤ))).sum
        = ((List.range n).map fun i : ℕ =>
            (if t.date = .valid (c + (i:ℤ)) then plOf t else 0) +
              dailyTotal rest (c + (i:ℤ))).sum := by
          simp only [dailyTotal_cons]
      _ = ((List.range n).map fun i : ℕ =>
            (if t.date = .valid (c + (i:ℤ)) then plOf t else 0)).sum +
          ((List.range n).map fun i : ℕ =>
            dailyTotal rest (c + (i:ℤ))).sum :=
          map_add_sum _ _ _
      _ = plOf t + (rest.map plOf).sum := by
          rw [ih hrest]
          congr 1
          simp only [hd, DateField.valid.injEq]
          rw [sum_indicator_range]
          exact if_pos ⟨hcd, hdn⟩
      _ = ((t :: rest).map plOf).sum := by simp

/-- **C7 counterexample.**  With the empty collection but a *bounded* range
(19998-19999, today = 20000), the daily series walks the range and has two
entries (neither dated today), refuting "under every filter and range
configuration ... exactly one entry, dated today". -/
theorem empty_collection_series_counterexample :
    (dailyPnLData (filteredTrades [] allFilters ⟨some 19998, some 19999⟩)
      ⟨some 19998, some 19999⟩ 20000).length = 2 := by
  norm_num [filteredTrades, rangeFilteredTrades, dailyPnLData, seriesBounds,
    defaultStartD, defaultEndD, seriesKeyMin, seriesKeyMax, validDays,
    hasMalformedDate, allFilters]
  rfl

/-- **C7 (amended).**  For the empty collection the metrics snapshot is all
zeros (`winRate = profitFactor = avgRR = 0.00`, `netPnL = 0`) under *every*
filter and range; the daily series is the single entry `(today, 0, 0)`
under every filter when the range is the *unbounded* one (a bounded range
instead walks its own span, per the counterexample). -/
theorem empty_collection_amended (f : Filters) (r : DateRange) (today : ℤ) :
    metrics (filteredTrades [] f r) = ⟨0, 0, 0, 0, .fin 0, 0, 0⟩
    ∧ dailyPnLData (filteredTrades [] f allRange) allRange today =
        [⟨today, 0⟩]
    ∧ cumulativePnLData (filteredTrades [] f allRange) allRange today =
        [⟨today, 0, 0⟩] := by
  have hfe : filteredTrades [] f allRange = [] := rfl
  have hd : dailyPnLData ([] : List Trade) allRange today = [⟨today, 0⟩] := by
    norm_num [dailyPnLData, seriesBounds, defaultStartD, defaultEndD,
      seriesKeyMin, seriesKeyMax, validDays, hasMalformedDate, dailyTotal,
      allRange]
    have hr1 : List.range 1 = [0] := rfl
    simp [hr1]
  refine ⟨?_, by rw [hfe, hd], ?_⟩
  · have h0 : filteredTrades [] f r = [] := rfl
    rw [h0]
    norm_num [metrics, totalWinRR, totalLossRR]
  · rw [hfe]
    rw [cumulativePnLData, hd]
    norm_num [withCumulative]

/-- **C8 counterexample.**  A single record with a malformed (non-empty,
unparsable) date survives the unbounded range filter, becomes the only
`dailyTotals` key, and parsing that key back yields an Invalid Date, so the
`while (cursor <= endDate)` guard is false from the start and the daily
series is *empty* — no entry at all, contradicting "one entry per calendar
day from seriesStart to seriesEnd inclusive" and leaving no last entry. -/
theorem malformed_date_series_counterexample :
    cumulativePnLData (filteredTrades
        [⟨9, .malformed, .empty, .long, "NQ!", .win, 1, some 50⟩]
        allFilters allRange) allRange 20000 = []
    ∧ (dailyPnLData (filteredTrades
        [⟨9, .malformed, .empty, .long, "NQ!", .win, 1, some 50⟩]
        allFilters allRange) allRange 20000).length = 0 := by
  have hf : filteredTrades
      [⟨9, .malformed, .empty, .long, "NQ!", .win, 1, some 50⟩]
      allFilters allRange =
      [⟨9, .malformed, .empty, .long, "NQ!", .win, 1, some 50⟩] := by
    simp [filteredTrades, rangeFilteredTrades, parseISODate, allFilters,
      allRange, List.filter_cons]
  rw [hf]
  constructor
  · simp [cumulativePnLData, dailyPnLData, seriesBounds, defaultStartD,
      defaultEndD, seriesKeyMin, seriesKeyMax, validDays, hasMalformedDate,
      keyToDate, allRange, withCumulative]
  · simp [dailyPnLData, seriesBounds, defaultStartD, defaultEndD,
      seriesKeyMin, seriesKeyMax, validDays, hasMalformedDate, keyToDate,
      allRange]

/-- **C8 (amended).**  For every trade collection *whose records all carry
parsable dates*, every filter configuration and every range, the series
bounds resolve to dates `c ≤ e`, the daily series has exactly one entry per
calendar day from `c` to `e` inclusive (length `(e − c) + 1`), and the
`cumulative` field of the last entry equals the sum of all `pnl` entries.
(A malformed date can instead propagate an Invalid Date into the bounds and
empty the series, per the counterexample.) -/
theorem daily_series_length_amended (ts : List Trade) (f : Filters)
    (r : DateRange) (today : ℤ)
    (h : ∀ t ∈ ts, ∃ d, t.date = DateField.valid d) :
    ∃ c e, seriesBounds (filteredTrades ts f r) r today = (some c, some e)
      ∧ c ≤ e
      ∧ (dailyPnLData (filteredTrades ts f r) r today).length =
          (e - c).toNat + 1
      ∧ (cumulativePnLData (filteredTrades ts f r) r today).getLast?.map
            (·.cumulative) =
          some (((dailyPnLData (filteredTrades ts f r) r today).map
            (·.pnl)).sum) := by
  have hsub : ∀ t ∈ filteredTrades ts f r, ∃ d, t.date = DateField.valid d := by
    intro t ht
    apply h
    simp only [filteredTrades] at ht
    have h1 := List.mem_of_mem_filter ht
    simp only [rangeFilteredTrades] at h1
    exact List.mem_of_mem_filter h1
  obtain ⟨c, e, hbe, hce⟩ :=
    seriesBounds_some _ r today (hasMalformedDate_eq_false _ hsub)
  have hdata : dailyPnLData (filteredTrades ts f r) r today =
      (List.range (e - c + 1).toNat).map (fun i : ℕ =>
        ⟨c + (i : ℤ), dailyTotal (filteredTrades ts f r) (c + (i : ℤ))⟩) := by
    simp only [dailyPnLData, hbe]
    rw [if_pos hce]
  have hne : dailyPnLData (filteredTrades ts f r) r today ≠ [] := by
    rw [hdata]
    simp only [ne_eq, List.map_eq_nil_iff, List.range_eq_nil]
    omega
  refine ⟨c, e, hbe, hce, ?_, ?_⟩
  · rw [hdata]
    simp only [List.length_map, List.length_range]
    omega
  · rw [cumulativePnLData, withCumulative_getLast _ 0 hne, zero_add]

/-- Witness for C8 (amended) at the one-record collection `[scWin]`. -/
theorem daily_series_length_witness :
    ∃ c e, seriesBounds (filteredTrades [scWin] allFilters allRange)
        allRange 20000 = (some c, some e)
      ∧ c ≤ e
      ∧ (dailyPnLData (filteredTrades [scWin] allFilters allRange)
          allRange 20000).length = (e - c).toNat + 1
      ∧ (cumulativePnLData (filteredTrades [scWin] allFilters allRange)
            allRange 20000).getLast?.map (·.cumulative) =
          some (((dailyPnLData (filteredTrades [scWin] allFilters allRange)
            allRange 20000).map (·.pnl)).sum) :=
  daily_series_length_amended [scWin] allFilters allRange 20000 (by
    intro t ht
    simp only [List.mem_singleton] at ht
    subst ht
    exact ⟨19724, rfl⟩)

/-- Every record with a valid date leaves the all-`'all'`, all-time pipeline
untouched. -/
theorem filteredTrades_all_of_valid (ts : List Trade)
    (h : ∀ t ∈ ts, ∃ d, t.date = DateField.valid d) :
    filteredTrades ts allFilters allRange = ts := by
  unfold filteredTrades
  have hr : rangeFilteredTrades ts allRange = ts := by
    unfold rangeFilteredTrades
    apply List.filter_eq_self.mpr
    intro t ht
    obtain ⟨d, hd⟩ := h t ht
    simp [hd, parseISODate, allRange]
  rw [hr]
  apply List.filter_eq_self.mpr
  intro t ht
  simp [allFilters]

/-- A day number occurring in a record occurs among the valid keys. -/
theorem mem_validDays_of_date (ts : List Trade) (t : Trade) (d : ℤ)
    (ht : t ∈ ts) (hd : t.date = DateField.valid d) : d ∈ validDays ts := by
  simp only [validDays, List.mem_filterMap]
  exact ⟨t, ht, by rw [hd]⟩

/-- Conversely, every valid key is some record's day number. -/
theorem date_of_mem_validDays (ts : List Trade) (d : ℤ)
    (hd : d ∈ validDays ts) : ∃ t ∈ ts, t.date = DateField.valid d := by
  simp only [validDays, List.mem_filterMap] at hd
  obtain ⟨t, ht, he⟩ := hd
  cases hdate : t.date with
  | empty => rw [hdate] at he; simp at he
  | malformed => rw [hdate] at he; simp at he
  | valid d' =>
    rw [hdate] at he
    simp only [Option.some.injEq] at he
    exact ⟨t, ht, by rw [hdate, he]⟩

/-- **C10.**  For every collection whose records all carry parsable dates on
or before today, under the all-time range with every filter `'all'`: the
pipeline passes all records through, the metrics `netPnL` is the total
`profitLoss` (missing treated as 0), and the last entry of the cumulative
daily series carries exactly that same total. -/
theorem cumulative_matches_netPnL (ts : List Trade) (today : ℤ)
    (h : ∀ t ∈ ts, ∃ d, t.date = DateField.valid d ∧ d ≤ today) :
    filteredTrades ts allFilters allRange = ts
    ∧ (metrics (filteredTrades ts allFilters allRange)).netPnL =
        (ts.map plOf).sum
    ∧ (cumulativePnLData (filteredTrades ts allFilters allRange) allRange
          today).getLast?.map (·.cumulative) =
        some ((metrics (filteredTrades ts allFilters allRange)).netPnL) := by
  have hvalid : ∀ t ∈ ts, ∃ d, t.date = DateField.valid d := by
    intro t ht
    obtain ⟨d, hd, _⟩ := h t ht
    exact ⟨d, hd⟩
  have hfs := filteredTrades_all_of_valid ts hvalid
  have hnet : (metrics (filteredTrades ts allFilters allRange)).netPnL =
      (ts.map plOf).sum := by
    rw [hfs]
    simp [metrics]
  refine ⟨hfs, hnet, ?_⟩
  rw [hfs]
  have hnet2 : (metrics ts).netPnL = (ts.map plOf).sum := by simp [metrics]
  rw [hnet2]
  by_cases hts : ts = []
  · subst hts
    have hd : dailyPnLData ([] : List Trade) allRange today = [⟨today, 0⟩] := by
      norm_num [dailyPnLData, seriesBounds, defaultStartD, defaultEndD,
        seriesKeyMin, seriesKeyMax, validDays, hasMalformedDate, dailyTotal,
        allRange]
      have hr1 : List.range 1 = [0] := rfl
      simp [hr1]
    rw [cumulativePnLData, hd]
    simp [withCumulative]
  · have hmf := hasMalformedDate_eq_false ts hvalid
    have hvne : validDays ts ≠ [] := by
      obtain ⟨t0, ht0⟩ := List.exists_mem_of_ne_nil ts hts
      obtain ⟨d0, hd0, _⟩ := h t0 ht0
      intro hnil
      have := mem_validDays_of_date ts t0 d0 ht0 hd0
      rw [hnil] at this
      simp at this
    obtain ⟨m, hm⟩ : ∃ m, (validDays ts).min? = some m := by
      cases hmm : (validDays ts).min? with
      | some m => exact ⟨m, rfl⟩
      | none => exact absurd (List.min?_eq_none_iff.mp hmm) hvne
    obtain ⟨M, hM⟩ : ∃ M, (validDays ts).max? = some M := by
      cases hmm : (validDays ts).max? with
      | some M => exact ⟨M, rfl⟩
      | none => exact absurd (List.max?_eq_none_iff.mp hmm) hvne
    have hall_le_today : ∀ d ∈ validDays ts, d ≤ today := by
      intro d hd
      obtain ⟨t, ht, he⟩ := date_of_mem_validDays ts d hd
      obtain ⟨d', hd', hle⟩ := h t ht
      rw [he] at hd'
      simp only [DateField.valid.injEq] at hd'
      rw [hd']
      exact hle
    have hm_mem : m ∈ validDays ts :=
      List.min?_mem (fun a b => min_choice a b) hm
    have hM_mem : M ∈ validDays ts :=
      List.max?_mem (fun a b => max_choice a b) hM
    have hall_le_M : ∀ d ∈ validDays ts, d ≤ M :=
      (List.max?_le_iff (fun _ _ _ => max_le_iff) hM).mp le_rfl
    have hm_today : m ≤ today := hall_le_today m hm_mem
    have hM_today : M ≤ today := hall_le_today M hM_mem
    have hmM : m ≤ M := hall_le_M m hm_mem
    have hm_le_all : ∀ d ∈ validDays ts, m ≤ d :=
      (List.le_min?_iff (fun _ _ _ => le_min_iff) hm).mp le_rfl
    have hb : seriesBounds ts allRange today = (some m, some M) := by
      unfold seriesBounds defaultStartD defaultEndD seriesKeyMin seriesKeyMax
      simp only [allRange, hm, hM, hmf, keyToDate, Option.map_some',
        Bool.false_eq_true, if_false]
      rw [if_neg (not_lt.mpr hM_today), if_neg (not_lt.mpr hm_today),
        if_neg (not_lt.mpr hmM)]
    have hdata : dailyPnLData ts allRange today =
        (List.range (M - m + 1).toNat).map (fun i : ℕ =>
          ⟨m + (i : ℤ), dailyTotal ts (m + (i : ℤ))⟩) := by
      simp only [dailyPnLData, hb]
      rw [if_pos hmM]
    have hne : dailyPnLData ts allRange today ≠ [] := by
      rw [hdata]
      simp only [ne_eq, List.map_eq_nil_iff, List.range_eq_nil]
      omega
    rw [cumulativePnLData, withCumulative_getLast _ 0 hne, zero_add]
    congr 1
    rw [hdata, List.map_map]
    have hcomp : ((fun e : DayEntry => e.pnl) ∘ fun i : ℕ =>
        (⟨m + (i : ℤ), dailyTotal ts (m + (i : ℤ))⟩ : DayEntry)) =
        fun i : ℕ => dailyTotal ts (m + (i : ℤ)) := rfl
    rw [hcomp]
    apply sum_dailyTotal
    intro t ht
    obtain ⟨d, hd⟩ := hvalid t ht
    have hdm := mem_validDays_of_date ts t d ht hd
    refine ⟨d, hd, hm_le_all d hdm, ?_⟩
    have h1 : d ≤ M := hall_le_M d hdm
    have h2 : ((M - m + 1).toNat : ℤ) = M - m + 1 := by omega
    omega

/-- Witness for C10 at the two-record §8 scenario collection. -/
theorem cumulative_matches_netPnL_witness :
    filteredTrades [scWin, scLoss] allFilters allRange = [scWin, scLoss]
    ∧ (metrics (filteredTrades [scWin, scLoss] allFilters allRange)).netPnL =
        ([scWin, scLoss].map plOf).sum
    ∧ (cumulativePnLData (filteredTrades [scWin, scLoss] allFilters allRange)
          allRange 20000).getLast?.map (·.cumulative) =
        some ((metrics (filteredTrades [scWin, scLoss] allFilters
          allRange)).netPnL) :=
  cumulative_matches_netPnL [scWin, scLoss] 20000 (by
    intro t ht
    simp only [List.mem_cons, List.not_mem_nil, or_false] at ht
    rcases ht with rfl | rfl
    · exact ⟨19724, rfl, by norm_num⟩
    · exact ⟨19724, rfl, by norm_num⟩)
